import Mathlib

/-!
Verification of the HTTP client core and the file-attachment cache of a
task-board MCP server, shallowly embedded in Lean 4.

The embedding follows the TypeScript source:
* `TrelloClient` (buildURL, extractRateLimitInfo, handleError, shouldRetry,
  makeRequest) from the client module;
* the attachment cache module (CACHE_TTL_MS, cacheFileAttachment,
  getCachedFileAttachment, cleanupFileAttachment, isCacheValid) and the
  attachment resource-read flow (handleAttachmentResource).

JavaScript-specific behaviour (truthiness, `parseInt`, `||` defaults,
`String.includes`, `URLSearchParams.set`) is modelled explicitly.
-/

namespace Trello

/-! ## JavaScript string and number helpers -/

/-- `needle` is a prefix of `hay` (character lists). -/
def charsHavePre : List Char → List Char → Bool
  | [], _ => true
  | _ :: _, [] => false
  | a :: as, b :: bs => a == b && charsHavePre as bs

/-- `needle` occurs somewhere inside `hay` (character lists). -/
def charsContain (needle : List Char) : List Char → Bool
  | [] => needle.isEmpty
  | b :: bs => charsHavePre needle (b :: bs) || charsContain needle bs

/-- Model of JavaScript `s.includes(sub)`. -/
def strContains (s sub : String) : Bool :=
  charsContain sub.data s.data

/-- ASCII lower-casing of one character. -/
def lowerChar (c : Char) : Char :=
  if 'A' ≤ c && c ≤ 'Z' then Char.ofNat (c.toNat + 32) else c

/-- ASCII lower-casing of a string (header names are ASCII). -/
def lowerString (s : String) : String :=
  String.mk (s.data.map lowerChar)

/-- Whitespace skipped by `parseInt` before the number. -/
def isWsChar (c : Char) : Bool :=
  c == ' ' || c == '\t' || c == '\n' || c == '\r'

/-- Model of JavaScript `parseInt(s, 10)`; `none` models `NaN`. -/
def jsParseInt (s : String) : Option Int :=
  let cs := s.data.dropWhile isWsChar
  let signed : Int × List Char :=
    match cs with
    | '-' :: rest => (-1, rest)
    | '+' :: rest => (1, rest)
    | _ => (1, cs)
  let digits := signed.2.takeWhile (fun c => c.isDigit)
  if digits.isEmpty then none
  else
    let n : Nat := digits.foldl (fun acc c => acc * 10 + (c.toNat - 48)) 0
    some (signed.1 * (n : Int))

/-- JavaScript `x || d` on a possibly-NaN number: `NaN` and `0` are falsy. -/
def jsOrNum (x : Option Int) (d : Int) : Int :=
  match x with
  | none => d
  | some v => if v = 0 then d else v

/-- JavaScript `x || d` on a possibly-null string: `null` and `""` are falsy. -/
def jsOrStr (x : Option String) (d : String) : String :=
  match x with
  | none => d
  | some s => if s.data.isEmpty then d else s

/-- JavaScript truthiness of a nullable string. -/
def jsTruthyStr : Option String → Bool
  | none => false
  | some s => !s.data.isEmpty

/-! ## Error classifier (`handleError`) and retry predicate (`shouldRetry`) -/

/-- A value thrown inside the request loop: a `TypeError` from `fetch`, an
`AbortError` from the timeout controller, a raw `Response` object thrown on a
non-ok status, some other value, or `undefined` (an unassigned variable). -/
inductive ThrownValue where
  | typeError (msg : String)
  | abortError (msg : String)
  | response (status : Nat) (statusText : String)
  | otherError (msg : String)
  | undefinedValue
deriving Repr, DecidableEq

/-- The `TrelloError` interface: message, optional raw diagnostic, optional
HTTP status, optional machine-readable code. -/
structure TrelloError where
  message : String
  error : Option String := none
  status : Option Nat := none
  code : Option String := none
deriving Repr, DecidableEq

/-- `TrelloClient.handleError`: classify an arbitrary thrown value into a
`TrelloError`, following the source's instanceof checks in order. -/
def handleError : ThrownValue → TrelloError
  | .typeError msg =>
      if strContains msg "fetch" then
        { message := "Network error - unable to reach Trello API"
          error := some msg
          code := some "NETWORK_ERROR" }
      else
        { message := "Unknown error occurred"
          error := some msg
          code := some "UNKNOWN_ERROR" }
  | .abortError msg =>
      { message := "Request timeout - Trello API did not respond in time"
        error := some msg
        code := some "TIMEOUT_ERROR" }
  | .response status statusText =>
      let mc : String × String :=
        if status == 401 then
          ("Invalid or expired Trello credentials. Please update your API key and token in Claude.app\x27s MCP connection settings.", "INVALID_CREDENTIALS")
        else if status == 403 then
          ("Insufficient permissions. Your Trello token may need additional permissions, or the resource may be private. Please check your Trello settings or update your token in Claude.app.", "INSUFFICIENT_PERMISSIONS")
        else if status == 404 then ("Resource not found", "NOT_FOUND")
        else if status == 429 then ("Rate limit exceeded", "RATE_LIMIT_EXCEEDED")
        else if status == 500 then ("Trello server error", "SERVER_ERROR")
        else (s!"HTTP {status} error", "API_ERROR")
      { message := mc.1
        error := some (s!"{status} - {statusText}")
        status := some status
        code := some mc.2 }
  | .otherError msg =>
      { message := "Unknown error occurred"
        error := some msg
        code := some "UNKNOWN_ERROR" }
  | .undefinedValue =>
      { message := "Unknown error occurred"
        error := some "undefined"
        code := some "UNKNOWN_ERROR" }

/-- `TrelloClient.shouldRetry`: network errors, timeouts, HTTP 5xx and 429. -/
def shouldRetry : ThrownValue → Bool
  | .typeError msg => strContains msg "fetch"
  | .abortError _ => true
  | .response status _ => decide (500 ≤ status) || status == 429
  | .otherError _ => false
  | .undefinedValue => false

/-! ## Rate limit snapshot -/

/-- Response headers, as name/value pairs; lookup is case-insensitive. -/
abbrev Headers := List (String × String)

/-- `response.headers.get(name)`. -/
def getHeader (hs : Headers) (name : String) : Option String :=
  (hs.find? (fun p => lowerString p.1 == lowerString name)).map (fun p => p.2)

/-- The rate-limit snapshot; `none` in a field models `NaN` from `parseInt`. -/
structure RateLimitInfo where
  limit : Int
  remaining : Option Int
  resetTime : Option Int
deriving Repr, DecidableEq

/-- `TrelloClient.extractRateLimitInfo`: a snapshot is produced iff the
`x-rate-limit-api-key-limit` header is present and non-empty. -/
def extractRateLimitInfo (hs : Headers) : Option RateLimitInfo :=
  let limit := getHeader hs "x-rate-limit-api-key-limit"
  let remaining := getHeader hs "x-rate-limit-api-key-remaining"
  let reset := getHeader hs "x-rate-limit-api-key-reset"
  if jsTruthyStr limit then
    some { limit := jsOrNum (jsParseInt (limit.getD "")) 300
           remaining := jsParseInt (jsOrStr remaining "0")
           resetTime := jsParseInt (jsOrStr reset "0") }
  else none

/-! ## Retry/backoff engine (`makeRequest`) -/

/-- What one `fetchWithTimeout` attempt produces: an ok response whose JSON
body parses, a non-ok response, or a thrown value from the fetch itself. -/
inductive AttemptOutcome where
  | ok (headers : Headers)
  | httpError (status : Nat) (statusText : String) (headers : Headers)
  | fetchFailure (e : ThrownValue)
deriving Repr

/-- The successful response envelope (`{data, rateLimit}`); the payload is
abstracted away, only the rate-limit snapshot is kept. -/
structure Envelope where
  rateLimit : Option RateLimitInfo
deriving Repr, DecidableEq

/-- Result of a full `makeRequest` run: the outcome and how many HTTP
attempts were made. -/
structure RunResult where
  result : Except TrelloError Envelope
  attemptsMade : Nat
deriving Repr

/-- `retryConfig.maxRetries` (total attempts of the loop). -/
def maxRetries : Nat := 3

/-- `error instanceof Response && error.status === 429`. -/
def isResponse429 : ThrownValue → Bool
  | .response status _ => status == 429
  | _ => false

/-- The catch block's decision to `continue` the loop: the (dead) 429 branch,
or attempts remain and the error is retryable. -/
def catchContinues (attempt : Nat) (e : ThrownValue) : Bool :=
  isResponse429 e || (decide (attempt < maxRetries) && shouldRetry e)

/-- After the loop: `throw this.handleError(lastError)`; `lastError` is
`undefined` when it was never assigned. -/
def classifyLast : Option ThrownValue → TrelloError
  | some e => handleError e
  | none => handleError .undefinedValue

/-- The body of `makeRequest`'s `for` loop.  `fuel` counts the remaining
iterations (`attempt` runs 1..maxRetries), `lastError` mirrors the mutable
variable of the source.  On a 429 response the source sleeps and `continue`s
inside the `try`, so `lastError` is not assigned on that path. -/
def makeRequestLoop (outcomes : Nat → AttemptOutcome) :
    Nat → Nat → Option ThrownValue → Nat → RunResult
  | 0, _attempt, lastError, made => ⟨.error (classifyLast lastError), made⟩
  | fuel + 1, attempt, lastError, made =>
    match outcomes attempt with
    | .ok headers => ⟨.ok ⟨extractRateLimitInfo headers⟩, made + 1⟩
    | .httpError status statusText _headers =>
      if status == 429 then
        makeRequestLoop outcomes fuel (attempt + 1) lastError (made + 1)
      else
        let e := ThrownValue.response status statusText
        if catchContinues attempt e then
          makeRequestLoop outcomes fuel (attempt + 1) (some e) (made + 1)
        else ⟨.error (handleError e), made + 1⟩
    | .fetchFailure e =>
      if catchContinues attempt e then
        makeRequestLoop outcomes fuel (attempt + 1) (some e) (made + 1)
      else ⟨.error (handleError e), made + 1⟩

/-- `TrelloClient.makeRequest`, as a function of the outcome of each attempt
(attempt numbers start at 1). -/
def makeRequest (outcomes : Nat → AttemptOutcome) : RunResult :=
  makeRequestLoop outcomes maxRetries 1 none 0

/-- The error code surfaced by a run, if it failed. -/
def runErrCode (r : RunResult) : Option String :=
  match r.result with
  | .error e => e.code
  | .ok _ => none

/-! ## Request builder (`buildURL`) -/

structure TrelloCredentials where
  apiKey : String
  token : String
deriving Repr, DecidableEq

/-- `URLSearchParams.set`: replace the value of an existing parameter with the
same name in place, else append at the end. -/
def assocSet {α : Type} (m : List (String × α)) (k : String) (v : α) : List (String × α) :=
  match m with
  | [] => [(k, v)]
  | (k0, v0) :: rest => if k0 == k then (k, v) :: rest else (k0, v0) :: assocSet rest k v

/-- `Map.prototype.get` / `URLSearchParams.get` on an association list. -/
def mapGet {α : Type} (m : List (String × α)) (k : String) : Option α :=
  (m.find? (fun p => p.1 == k)).map (fun p => p.2)

/-- One step of `buildURL`'s parameter loop: set the parameter when its value
is defined, skip it when it is `undefined`. -/
def setDefinedParam (acc : List (String × String)) (kv : String × Option String) :
    List (String × String) :=
  match kv.2 with
  | some v => assocSet acc kv.1 v
  | none => acc

/-- The search-parameter list built by `buildURL`: first the two credential
parameters, then each caller-supplied parameter whose value is defined. -/
def buildURLParams (params : List (String × Option String))
    (creds : TrelloCredentials) : List (String × String) :=
  params.foldl setDefinedParam (assocSet (assocSet [] "key" creds.apiKey) "token" creds.token)

/-- Hex digit used by percent-encoding. -/
def hexDigitChar (n : Nat) : Char :=
  if n < 10 then Char.ofNat (48 + n) else Char.ofNat (55 + n)

/-- Characters `URLSearchParams` serialisation leaves unescaped. -/
def isFormUnreserved (c : Char) : Bool :=
  ('A' ≤ c && c ≤ 'Z') || ('a' ≤ c && c ≤ 'z') || ('0' ≤ c && c ≤ '9') ||
    c == '*' || c == '-' || c == '.' || c == '_'

/-- UTF-8 bytes of a character. -/
def utf8BytesOfChar (c : Char) : List Nat :=
  let n := c.toNat
  if n < 128 then [n]
  else if n < 2048 then [192 + n / 64, 128 + n % 64]
  else if n < 65536 then [224 + n / 4096, 128 + (n / 64) % 64, 128 + n % 64]
  else [240 + n / 262144, 128 + (n / 4096) % 64, 128 + (n / 64) % 64, 128 + n % 64]

def percentEncodeByte (b : Nat) : String :=
  String.mk ['%', hexDigitChar (b / 16), hexDigitChar (b % 16)]

def formEncodeChar (c : Char) : String :=
  if isFormUnreserved c then String.mk [c]
  else if c == ' ' then "+"
  else String.join ((utf8BytesOfChar c).map percentEncodeByte)

/-- `application/x-www-form-urlencoded` serialisation of one component. -/
def formEncode (s : String) : String :=
  String.join (s.data.map formEncodeChar)

def serializeQuery (ps : List (String × String)) : String :=
  String.intercalate "&" (ps.map (fun p => formEncode p.1 ++ "=" ++ formEncode p.2))

def baseURL : String := "https://api.trello.com/1"

/-- `TrelloClient.buildURL`: credentials plus defined caller parameters,
rendered as a URL string.  Undefined-valued parameters are skipped. -/
def buildURL (endpoint : String) (params : List (String × Option String))
    (creds : TrelloCredentials) : String :=
  baseURL ++ endpoint ++ "?" ++ serializeQuery (buildURLParams params creds)

/-! ## Attachment cache (cache module) -/

/-- `CACHE_TTL_MS = 10 * 60 * 1000` (10 minutes). -/
def CACHE_TTL_MS : Int := 10 * 60 * 1000

/-- A cache entry; `cleanupTimer` is the identifier of the pending
`setTimeout` handle. -/
structure CachedFileAttachment where
  filePath : String
  fileName : String
  fileSize : Int
  mimeType : String
  cardId : String
  attachmentId : String
  downloadedAt : Int
  cleanupTimer : Nat
deriving Repr, DecidableEq

/-- The timer-free part of an entry (`Omit<CachedFileAttachment, 'cleanupTimer'>`),
as passed to `cacheFileAttachment`. -/
structure FileAttachmentInfo where
  filePath : String
  fileName : String
  fileSize : Int
  mimeType : String
  cardId : String
  attachmentId : String
  downloadedAt : Int
deriving Repr, DecidableEq

def CachedFileAttachment.fields (e : CachedFileAttachment) : FileAttachmentInfo :=
  ⟨e.filePath, e.fileName, e.fileSize, e.mimeType, e.cardId, e.attachmentId, e.downloadedAt⟩

/-- A pending `setTimeout` cleanup callback. -/
structure PendingTimer where
  id : Nat
  fireAt : Int
  target : String
deriving Repr, DecidableEq

/-- The module-level mutable state the cache lives in: the wall clock, the
`fileAttachmentCache` map, the pending timers, the set of files on disk, and
the next fresh timer handle. -/
structure CacheState where
  now : Int
  entries : List (String × CachedFileAttachment)
  timers : List PendingTimer
  files : List String
  nextTimerId : Nat
deriving Repr

/-- `getCachedFileAttachment`. -/
def getCachedFileAttachment (s : CacheState) (attachmentId : String) :
    Option CachedFileAttachment :=
  mapGet s.entries attachmentId

/-- `cleanupFileAttachment`: clear the entry's timer, delete the backing file
if present (errors ignored), remove the map entry; no-op when absent. -/
def cleanupFileAttachment (s : CacheState) (attachmentId : String) : CacheState :=
  match mapGet s.entries attachmentId with
  | none => s
  | some cached =>
    { s with
      timers := s.timers.filter (fun tm => tm.id != cached.cleanupTimer)
      files := s.files.filter (fun f => f != cached.filePath)
      entries := s.entries.filter (fun p => p.1 != attachmentId) }

/-- `cacheFileAttachment`: schedule a cleanup `CACHE_TTL_MS` from now and
store the entry under its attachment identifier. -/
def cacheFileAttachment (s : CacheState) (a : FileAttachmentInfo) : CacheState :=
  let tid := s.nextTimerId
  { s with
    nextTimerId := tid + 1
    timers := s.timers ++ [⟨tid, s.now + CACHE_TTL_MS, a.attachmentId⟩]
    entries := assocSet s.entries a.attachmentId
      ⟨a.filePath, a.fileName, a.fileSize, a.mimeType, a.cardId, a.attachmentId,
        a.downloadedAt, tid⟩ }

/-- `isCacheValid`: not expired by wall clock and the file still exists. -/
def isCacheValid (s : CacheState) (cached : CachedFileAttachment) : Bool :=
  let isExpired := decide (s.now - cached.downloadedAt ≥ CACHE_TTL_MS)
  let fileExists := s.files.contains cached.filePath
  !isExpired && fileExists

/-- `clearFileAttachmentCache`: cleanup every cached identifier. -/
def clearFileAttachmentCache (s : CacheState) : CacheState :=
  (s.entries.map (fun p => p.1)).foldl cleanupFileAttachment s

/-- Remove and return the first timer due at wall-clock time `t`. -/
def popDueTimer (t : Int) : List PendingTimer → Option (PendingTimer × List PendingTimer)
  | [] => none
  | tm :: rest =>
    if tm.fireAt ≤ t then some (tm, rest)
    else
      match popDueTimer t rest with
      | none => none
      | some (tm2, rest2) => some (tm2, tm :: rest2)

/-- Run due timer callbacks one at a time; `fuel` bounds the number of
callbacks (the queue only shrinks, so the initial queue length suffices). -/
def fireDueTimers (t : Int) : Nat → CacheState → CacheState
  | 0, s => s
  | fuel + 1, s =>
    match popDueTimer t s.timers with
    | none => s
    | some (tm, rest) =>
      fireDueTimers t fuel (cleanupFileAttachment { s with timers := rest } tm.target)

/-- Advance the wall clock to `t`, firing every cleanup timer that comes due. -/
def advanceTo (s : CacheState) (t : Int) : CacheState :=
  { fireDueTimers t s.timers.length s with now := t }

/-! ## Attachment resource-read flow (`handleAttachmentResource`) -/

/-- The attachment metadata returned by `getCardAttachment`; optional fields
model `undefined`. -/
structure TrelloAttachment where
  name : Option String
  url : String
  mimeType : Option String
  bytes : Option Int
deriving Repr, DecidableEq

/-- What escapes the resource-read handler on failure: the `TrelloError`
thrown by the API client, the raw value thrown by the download `fetch`, or a
plain `Error` thrown by the handler itself. -/
inductive FlowError where
  | typed (e : TrelloError)
  | raw (e : ThrownValue)
  | jsError (msg : String)
deriving Repr, DecidableEq

/-- The download `fetch` response. -/
structure DownloadResponse where
  ok : Bool
  status : Nat
  statusText : String
  bodyLength : Int
deriving Repr, DecidableEq

/-- The environment of one resource read: what the metadata fetch and the
binary download would produce if reached. -/
structure AttachmentFlowEnv where
  metadataResult : Except TrelloError (Option TrelloAttachment)
  downloadResult : Except ThrownValue DownloadResponse
deriving Repr

/-- The metadata served back to the caller (fields relevant to the claims). -/
structure ServeInfo where
  filePath : String
  fileName : String
  fileSize : Int
  mimeType : String
  cached : Bool
deriving Repr, DecidableEq

/-- `fileName.replace(/[^a-zA-Z0-9._-]/g, '_')`. -/
def sanitizeFileName (s : String) : String :=
  String.mk (s.data.map (fun c =>
    if ('a' ≤ c && c ≤ 'z') || ('A' ≤ c && c ≤ 'Z') || ('0' ≤ c && c ≤ '9') ||
        c == '.' || c == '_' || c == '-' then c
    else '_'))

/-- `path.join(os.tmpdir(), 'trello-mcp-server')`, with `os.tmpdir()`
modelled as `/tmp`. -/
def TEMP_DIR : String := "/tmp/trello-mcp-server"

/-- `fs.writeFileSync`: afterwards the path exists on disk. -/
def writeFile (files : List String) (filePath : String) : List String :=
  if files.contains filePath then files else files ++ [filePath]

/-- The miss path of `handleAttachmentResource`: fetch metadata via the API
client, download the binary, write it to the temp path, cache it.  The final
cache state is returned even when an error is thrown, matching the
persistence of the module-level map across a throw. -/
def fetchAndCacheAttachment (s : CacheState) (cardId attachmentId fileName : String)
    (env : AttachmentFlowEnv) : CacheState × Except FlowError ServeInfo :=
  match env.metadataResult with
  | .error e => (s, .error (.typed e))
  | .ok none =>
    (s, .error (.jsError ("Attachment " ++ attachmentId ++ " not found on card " ++ cardId)))
  | .ok (some attachment) =>
    let filePath := TEMP_DIR ++ "/" ++ attachmentId ++ "_" ++ sanitizeFileName fileName
    match env.downloadResult with
    | .error e => (s, .error (.raw e))
    | .ok resp =>
      if !resp.ok then
        (s, .error (.jsError ("Failed to download attachment: " ++ toString resp.status
          ++ " " ++ resp.statusText)))
      else
        let s1 := { s with files := writeFile s.files filePath }
        let finalName := jsOrStr attachment.name fileName
        let mimeType := jsOrStr attachment.mimeType "application/octet-stream"
        let fileSize := jsOrNum attachment.bytes resp.bodyLength
        let s2 := cacheFileAttachment s1
          ⟨filePath, finalName, fileSize, mimeType, cardId, attachmentId, s1.now⟩
        (s2, .ok ⟨filePath, finalName, fileSize, mimeType, false⟩)

/-- `handleAttachmentResource` (after URI parsing): serve a valid cached
entry, clean up an invalid one and fall through to the fetch, or fetch
directly on a miss. -/
def handleAttachmentResource (s : CacheState) (cardId attachmentId fileName : String)
    (env : AttachmentFlowEnv) : CacheState × Except FlowError ServeInfo :=
  match getCachedFileAttachment s attachmentId with
  | some cached =>
    if isCacheValid s cached then
      (s, .ok ⟨cached.filePath, cached.fileName, cached.fileSize, cached.mimeType, true⟩)
    else
      fetchAndCacheAttachment (cleanupFileAttachment s attachmentId)
        cardId attachmentId fileName env
  | none => fetchAndCacheAttachment s cardId attachmentId fileName env

/-- Discriminator: did the flow fail with a Typed Error from the API client? -/
def flowErrIsTyped : Except FlowError ServeInfo → Bool
  | .error (.typed _) => true
  | _ => false

/-! ## Theorems: retry/backoff engine -/

/-- One unfolding step of the retry loop (definitional). -/
theorem makeRequestLoop_succ (o : Nat → AttemptOutcome) (fuel attempt : Nat)
    (lastError : Option ThrownValue) (made : Nat) :
    makeRequestLoop o (fuel + 1) attempt lastError made =
      match o attempt with
      | .ok headers => ⟨.ok ⟨extractRateLimitInfo headers⟩, made + 1⟩
      | .httpError status statusText _headers =>
        if status == 429 then
          makeRequestLoop o fuel (attempt + 1) lastError (made + 1)
        else if catchContinues attempt (.response status statusText) then
          makeRequestLoop o fuel (attempt + 1) (some (.response status statusText)) (made + 1)
        else ⟨.error (handleError (.response status statusText)), made + 1⟩
      | .fetchFailure e =>
        if catchContinues attempt e then
          makeRequestLoop o fuel (attempt + 1) (some e) (made + 1)
        else ⟨.error (handleError e), made + 1⟩ := rfl

/-- C1.  When every attempt receives HTTP 429, the loop takes the in-try
`continue` path each time and never assigns `lastError`; after exhaustion the
engine classifies `undefined` and throws `UNKNOWN_ERROR`, although the
classifier would map the last 429 failure itself to `RATE_LIMIT_EXCEEDED`.
This contradicts the specified behaviour (classify and raise the last
failure's Typed Error). -/
theorem all_429_exhaustion_throws_unknown :
    makeRequest (fun _ => .httpError 429 "Too Many Requests" []) =
      ⟨.error { message := "Unknown error occurred", error := some "undefined",
                status := none, code := some "UNKNOWN_ERROR" }, 3⟩ ∧
    (handleError (.response 429 "Too Many Requests")).code = some "RATE_LIMIT_EXCEEDED" :=
  ⟨rfl, rfl⟩

/-- C2 counterexample.  Every attempt returning HTTP 502 exhausts the three
attempts, but the surfaced code is `API_ERROR`, not `SERVER_ERROR`: only
status 500 maps to `SERVER_ERROR` in the classifier. -/
theorem retry_5xx_counterexample :
    runErrCode (makeRequest (fun _ => .httpError 502 "Bad Gateway" [])) = some "API_ERROR" ∧
    runErrCode (makeRequest (fun _ => .httpError 502 "Bad Gateway" [])) ≠ some "SERVER_ERROR" :=
  ⟨rfl, by decide⟩

/-- C2 amended.  For every status in {500, 502, 503, 504} the client retries
up to the attempt limit (3 attempts total); after exhaustion the surfaced
Typed Error classifies the last response — code `SERVER_ERROR` for 500 and
`API_ERROR` (message `HTTP <status> error`) for 502/503/504. -/
theorem retry_5xx_exhaustion (status : Nat) (text : String)
    (h : status = 500 ∨ status = 502 ∨ status = 503 ∨ status = 504) :
    (makeRequest (fun _ => .httpError status text [])).attemptsMade = 3 ∧
    (makeRequest (fun _ => .httpError status text [])).result =
      .error (handleError (.response status text)) ∧
    runErrCode (makeRequest (fun _ => .httpError status text [])) =
      some (if status = 500 then "SERVER_ERROR" else "API_ERROR") := by
  rcases h with rfl | rfl | rfl | rfl <;> exact ⟨rfl, rfl, rfl⟩

/-- Witness for C2's amended theorem at status 502. -/
theorem retry_5xx_exhaustion_witness :
    (makeRequest (fun _ => .httpError 502 "Bad Gateway" [])).attemptsMade = 3 ∧
    (makeRequest (fun _ => .httpError 502 "Bad Gateway" [])).result =
      .error (handleError (.response 502 "Bad Gateway")) ∧
    runErrCode (makeRequest (fun _ => .httpError 502 "Bad Gateway" [])) = some "API_ERROR" :=
  retry_5xx_exhaustion 502 "Bad Gateway" (Or.inr (Or.inl rfl))

/-- C6.  A 4xx status other than 429 on the first attempt is not retried: the
run makes exactly one attempt and surfaces the classification of that
response; in particular 404 surfaces `NOT_FOUND`. -/
theorem client_4xx_fails_first_attempt (o : Nat → AttemptOutcome) (status : Nat)
    (text : String) (hs : Headers) (h1 : o 1 = .httpError status text hs)
    (h400 : 400 ≤ status) (h500 : status < 500) (h429 : status ≠ 429) :
    makeRequest o = ⟨.error (handleError (.response status text)), 1⟩ ∧
    (status = 404 → runErrCode (makeRequest o) = some "NOT_FOUND") := by
  have hbeq : (status == 429) = false := by
    simp only [beq_eq_false_iff_ne, ne_eq]
    exact h429
  have hdec : decide (500 ≤ status) = false := decide_eq_false (by omega)
  have hcc : catchContinues 1 (.response status text) = false := by
    simp [catchContinues, isResponse429, shouldRetry, hbeq, hdec]
  have hrun : makeRequest o = ⟨.error (handleError (.response status text)), 1⟩ := by
    have e1 : makeRequest o = makeRequestLoop o (2 + 1) 1 none 0 := rfl
    rw [e1, makeRequestLoop_succ, h1]
    simp [hbeq, hcc]
  refine ⟨hrun, ?_⟩
  rintro rfl
  rw [hrun]
  rfl

/-- Witness for C6 at a 404 response. -/
theorem client_4xx_fails_first_attempt_witness :
    makeRequest (fun _ => .httpError 404 "Not Found" []) =
      ⟨.error (handleError (.response 404 "Not Found")), 1⟩ ∧
    runErrCode (makeRequest (fun _ => .httpError 404 "Not Found" [])) = some "NOT_FOUND" := by
  have h := client_4xx_fails_first_attempt (fun _ => .httpError 404 "Not Found" [])
    404 "Not Found" [] rfl (by omega) (by omega) (by omega)
  exact ⟨h.1, h.2 rfl⟩

/-- C7.  When every attempt fails with a network error (a `TypeError` whose
message mentions `fetch`), exactly 3 attempts are made and the engine throws
the `NETWORK_ERROR` Typed Error. -/
theorem network_failure_three_attempts (msg : String)
    (h : strContains msg "fetch" = true) :
    makeRequest (fun _ => .fetchFailure (.typeError msg)) =
      ⟨.error { message := "Network error - unable to reach Trello API",
                error := some msg, status := none, code := some "NETWORK_ERROR" }, 3⟩ := by
  have hsr : shouldRetry (.typeError msg) = true := h
  have hcc1 : catchContinues 1 (.typeError msg) = true := by
    simp [catchContinues, isResponse429, hsr, maxRetries]
  have hcc2 : catchContinues 2 (.typeError msg) = true := by
    simp [catchContinues, isResponse429, hsr, maxRetries]
  have hcc3 : catchContinues 3 (.typeError msg) = false := by
    simp [catchContinues, isResponse429, maxRetries]
  have e1 : makeRequest (fun _ => .fetchFailure (.typeError msg)) =
      makeRequestLoop (fun _ => .fetchFailure (.typeError msg)) (2 + 1) 1 none 0 := rfl
  rw [e1, makeRequestLoop_succ]
  simp only [hcc1, if_true]
  have e2 : makeRequestLoop (fun _ => AttemptOutcome.fetchFailure (.typeError msg))
      2 2 (some (.typeError msg)) 1 =
      makeRequestLoop (fun _ => AttemptOutcome.fetchFailure (.typeError msg))
        (1 + 1) 2 (some (.typeError msg)) 1 := rfl
  rw [e2, makeRequestLoop_succ]
  simp only [hcc2, if_true]
  have e3 : makeRequestLoop (fun _ => AttemptOutcome.fetchFailure (.typeError msg))
      1 3 (some (.typeError msg)) 2 =
      makeRequestLoop (fun _ => AttemptOutcome.fetchFailure (.typeError msg))
        (0 + 1) 3 (some (.typeError msg)) 2 := rfl
  rw [e3, makeRequestLoop_succ]
  simp [hcc3, handleError, h]

/-- Witness for C7 with the message "fetch failed". -/
theorem network_failure_three_attempts_witness :
    makeRequest (fun _ => .fetchFailure (.typeError "fetch failed")) =
      ⟨.error { message := "Network error - unable to reach Trello API",
                error := some "fetch failed", status := none,
                code := some "NETWORK_ERROR" }, 3⟩ :=
  network_failure_three_attempts "fetch failed" rfl

/-- C10 counterexample.  Upstream sends the `remaining` and `reset` rate-limit
headers but omits `limit`: the headers are not omitted, yet the snapshot on
the successful envelope is absent, because presence depends only on the
`limit` header. -/
theorem rate_limit_snapshot_counterexample :
    (makeRequest (fun _ => .ok [("x-rate-limit-api-key-remaining", "100"),
        ("x-rate-limit-api-key-reset", "50")])).result = .ok ⟨none⟩ ∧
    ([("x-rate-limit-api-key-remaining", "100"),
        ("x-rate-limit-api-key-reset", "50")] : Headers) ≠ [] :=
  ⟨rfl, by decide⟩

/-- C10 amended.  The snapshot parsed from the response headers is attached
to every successful envelope, and it is absent exactly when the
`x-rate-limit-api-key-limit` header is absent or empty; the other two headers
do not affect presence (when missing they default to parsing "0"). -/
theorem rate_limit_snapshot_amended (o : Nat → AttemptOutcome) (hs : Headers)
    (h : o 1 = .ok hs) :
    makeRequest o = ⟨.ok ⟨extractRateLimitInfo hs⟩, 1⟩ ∧
    (extractRateLimitInfo hs).isSome =
      jsTruthyStr (getHeader hs "x-rate-limit-api-key-limit") := by
  constructor
  · have e1 : makeRequest o = makeRequestLoop o (2 + 1) 1 none 0 := rfl
    rw [e1, makeRequestLoop_succ, h]
  · unfold extractRateLimitInfo
    cases htr : jsTruthyStr (getHeader hs "x-rate-limit-api-key-limit") <;> simp [htr]

/-- Witness for C10's amended theorem: only the `limit` header present. -/
theorem rate_limit_snapshot_amended_witness :
    makeRequest (fun _ => .ok [("x-rate-limit-api-key-limit", "300")]) =
      ⟨.ok ⟨extractRateLimitInfo [("x-rate-limit-api-key-limit", "300")]⟩, 1⟩ ∧
    (extractRateLimitInfo [("x-rate-limit-api-key-limit", "300")]).isSome =
      jsTruthyStr (getHeader [("x-rate-limit-api-key-limit", "300")]
        "x-rate-limit-api-key-limit") :=
  rate_limit_snapshot_amended (fun _ => .ok [("x-rate-limit-api-key-limit", "300")]) _ rfl

/-! ## Theorems: request builder -/

theorem assocSet_self_mem {α : Type} (m : List (String × α)) (k : String) (v : α) :
    (k, v) ∈ assocSet m k v := by
  induction m with
  | nil => simp [assocSet]
  | cons p rest ih =>
    obtain ⟨k0, v0⟩ := p
    by_cases h : k0 == k
    · simp [assocSet, h]
    · simp only [assocSet, h, Bool.false_eq_true, if_false, List.mem_cons]
      exact Or.inr ih

theorem mem_assocSet_of_ne {α : Type} {m : List (String × α)} {k' : String} {v' : α}
    (k : String) (v : α) (hm : (k', v') ∈ m) (hne : k' ≠ k) :
    (k', v') ∈ assocSet m k v := by
  induction m with
  | nil => cases hm
  | cons p rest ih =>
    obtain ⟨k0, v0⟩ := p
    rcases List.mem_cons.mp hm with heq | htail
    · injection heq with he1 he2
      subst he1
      subst he2
      have hk0 : (k' == k) = false := by simp [hne]
      simp [assocSet, hk0]
    · by_cases h : k0 == k
      · simp [assocSet, h]
        right
        exact htail
      · simp only [assocSet, h, Bool.false_eq_true, if_false, List.mem_cons]
        exact Or.inr (ih htail)

theorem mem_of_mem_assocSet {α : Type} {m : List (String × α)} {p : String × α}
    {k : String} {v : α} (h : p ∈ assocSet m k v) : p = (k, v) ∨ p ∈ m := by
  induction m with
  | nil => simpa [assocSet] using h
  | cons q rest ih =>
    obtain ⟨k0, v0⟩ := q
    by_cases hk : k0 == k
    · simp only [assocSet, hk, if_true, List.mem_cons] at h
      rcases h with h | h
      · exact Or.inl h
      · exact Or.inr (List.mem_cons.mpr (Or.inr h))
    · simp only [assocSet, hk, Bool.false_eq_true, if_false, List.mem_cons] at h
      rcases h with h | h
      · exact Or.inr (List.mem_cons.mpr (Or.inl h))
      · rcases ih h with h2 | h2
        · exact Or.inl h2
        · exact Or.inr (List.mem_cons.mpr (Or.inr h2))

theorem key_mem_of_mem_assocSet {α : Type} {m : List (String × α)} {a k : String}
    {v : α} (h : a ∈ (assocSet m k v).map Prod.fst) :
    a ∈ m.map Prod.fst ∨ a = k := by
  rcases List.mem_map.mp h with ⟨p, hp, hpa⟩
  rcases mem_of_mem_assocSet hp with h2 | h2
  · right
    rw [← hpa, h2]
  · left
    exact hpa ▸ List.mem_map_of_mem Prod.fst h2

theorem foldl_setDefinedParam_pres (params : List (String × Option String))
    (k0 : String) (v0 : String) :
    ∀ acc, (k0, v0) ∈ acc → (∀ p ∈ params, p.1 ≠ k0) →
      (k0, v0) ∈ params.foldl setDefinedParam acc := by
  induction params with
  | nil => intro acc h _; exact h
  | cons q rest ih =>
    intro acc hacc hne
    simp only [List.foldl_cons]
    refine ih _ ?_ ?_
    · obtain ⟨qk, qv⟩ := q
      cases qv with
      | none => exact hacc
      | some v =>
        refine mem_assocSet_of_ne _ _ hacc ?_
        have := hne (qk, some v) (List.mem_cons_self _ _)
        simpa using fun hc => this (by simp [hc])
    · intro p hp
      exact hne p (List.mem_cons.mpr (Or.inr hp))

theorem foldl_setDefinedParam_sets (params : List (String × Option String))
    (k : String) (v : String) :
    ∀ acc, (params.map Prod.fst).Nodup → (k, some v) ∈ params →
      (k, v) ∈ params.foldl setDefinedParam acc := by
  induction params with
  | nil => intro acc _ h; cases h
  | cons q rest ih =>
    intro acc hnd hmem
    rw [List.map_cons] at hnd
    have hnd2 := List.nodup_cons.mp hnd
    simp only [List.foldl_cons]
    rcases List.mem_cons.mp hmem with heq | htail
    · subst heq
      refine foldl_setDefinedParam_pres rest k v _ ?_ ?_
      · exact assocSet_self_mem acc k v
      · intro p hp hpk
        apply hnd2.1
        have hmm : p.1 ∈ rest.map Prod.fst := List.mem_map_of_mem Prod.fst hp
        rwa [hpk] at hmm
    · exact ih _ hnd2.2 htail

theorem foldl_setDefinedParam_not_key (params : List (String × Option String))
    (k0 : String) :
    ∀ acc, k0 ∉ acc.map Prod.fst → (∀ p ∈ params, p.1 = k0 → p.2 = none) →
      k0 ∉ (params.foldl setDefinedParam acc).map Prod.fst := by
  induction params with
  | nil => intro acc h _; exact h
  | cons q rest ih =>
    intro acc hacc hnone
    simp only [List.foldl_cons]
    refine ih _ ?_ ?_
    · obtain ⟨qk, qv⟩ := q
      cases hqv : qv with
      | none => simpa [setDefinedParam] using hacc
      | some v =>
        intro hmem
        simp only [setDefinedParam] at hmem
        rcases key_mem_of_mem_assocSet hmem with h2 | h2
        · exact hacc h2
        · have := hnone (qk, some v) (by simp [hqv]) (by simpa using h2.symm)
          cases this
    · intro p hp hpk
      exact hnone p (List.mem_cons.mpr (Or.inr hp)) hpk

theorem eq_of_mem_of_nodup_keys {α : Type} {l : List (String × α)}
    (h : (l.map Prod.fst).Nodup) {k : String} {a b : α}
    (ha : (k, a) ∈ l) (hb : (k, b) ∈ l) : a = b := by
  induction l with
  | nil => cases ha
  | cons q rest ih =>
    rw [List.map_cons] at h
    have hnd := List.nodup_cons.mp h
    rcases List.mem_cons.mp ha with h1 | h1 <;> rcases List.mem_cons.mp hb with h2 | h2
    · rw [← h1] at h2
      exact congrArg Prod.snd h2.symm
    · exfalso
      apply hnd.1
      have : q.1 = k := congrArg Prod.fst h1.symm
      exact this ▸ List.mem_map_of_mem Prod.fst h2
    · exfalso
      apply hnd.1
      have : q.1 = k := congrArg Prod.fst h2.symm
      exact this ▸ List.mem_map_of_mem Prod.fst h1
    · exact ih hnd.2 h1 h2

/-- C5 counterexample.  A caller-supplied parameter literally named `key`
overwrites the credential parameter: the built URL for params `{key: "x"}`
with credentials `{apiKey: "k", token: "t"}` contains `key=x` but not the
credential pair `key=k`, refuting the claim for arbitrary parameter maps. -/
theorem buildURL_counterexample :
    strContains (buildURL "/cards" [("key", some "x")] ⟨"k", "t"⟩) "key=x" = true ∧
    strContains (buildURL "/cards" [("key", some "x")] ⟨"k", "t"⟩) "key=k" = false :=
  ⟨rfl, rfl⟩

/-- C5 amended.  For every path and every caller parameter map whose keys are
distinct and avoid the reserved credential names `key` and `token`, the built
parameter list contains the credential pairs and every caller pair with a
defined value, while parameters with an undefined value are omitted entirely
(so no `undefined` literal can arise from them); a caller parameter named
`key` or `token` would instead overwrite the credential.  The spec's
round-trip example holds: the URL for `/cards` with `{name: "foo"}` and an
omitted optional parameter contains `key=k`, `token=t`, `name=foo` and no
`undefined` substring. -/
theorem buildURL_amended (params : List (String × Option String))
    (creds : TrelloCredentials) (hnd : (params.map Prod.fst).Nodup)
    (hres : ∀ p ∈ params, p.1 ≠ "key" ∧ p.1 ≠ "token") :
    ("key", creds.apiKey) ∈ buildURLParams params creds ∧
    ("token", creds.token) ∈ buildURLParams params creds ∧
    (∀ k v, (k, some v) ∈ params → (k, v) ∈ buildURLParams params creds) ∧
    (∀ k, (k, none) ∈ params → k ∉ (buildURLParams params creds).map Prod.fst) ∧
    strContains (buildURL "/cards" [("name", some "foo"), ("desc", none)] ⟨"k", "t"⟩)
      "key=k" = true ∧
    strContains (buildURL "/cards" [("name", some "foo"), ("desc", none)] ⟨"k", "t"⟩)
      "token=t" = true ∧
    strContains (buildURL "/cards" [("name", some "foo"), ("desc", none)] ⟨"k", "t"⟩)
      "name=foo" = true ∧
    strContains (buildURL "/cards" [("name", some "foo"), ("desc", none)] ⟨"k", "t"⟩)
      "undefined" = false := by
  have hbase : assocSet (assocSet ([] : List (String × String)) "key" creds.apiKey)
      "token" creds.token = [("key", creds.apiKey), ("token", creds.token)] := rfl
  refine ⟨?_, ?_, ?_, ?_, rfl, rfl, rfl, rfl⟩
  · refine foldl_setDefinedParam_pres params "key" creds.apiKey _ ?_ ?_
    · rw [hbase]; simp
    · intro p hp
      exact (hres p hp).1
  · refine foldl_setDefinedParam_pres params "token" creds.token _ ?_ ?_
    · rw [hbase]; simp
    · intro p hp
      exact (hres p hp).2
  · intro k v hkv
    exact foldl_setDefinedParam_sets params k v _ hnd hkv
  · intro k hk
    refine foldl_setDefinedParam_not_key params k _ ?_ ?_
    · rw [hbase]
      have h1 := (hres (k, none) hk).1
      have h2 := (hres (k, none) hk).2
      simp [h1, h2]
    · intro p hp hpk
      rcases p with ⟨pk, pv⟩
      cases pv with
      | none => rfl
      | some w =>
        exfalso
        have : k = pk := hpk.symm
        subst this
        have := eq_of_mem_of_nodup_keys hnd hk hp
        cases this

/-- Witness for C5's amended theorem on the spec's round-trip example. -/
theorem buildURL_amended_witness :
    ("key", "k") ∈ buildURLParams [("name", some "foo"), ("desc", none)] ⟨"k", "t"⟩ ∧
    ("token", "t") ∈ buildURLParams [("name", some "foo"), ("desc", none)] ⟨"k", "t"⟩ ∧
    ("name", "foo") ∈ buildURLParams [("name", some "foo"), ("desc", none)] ⟨"k", "t"⟩ ∧
    "desc" ∉ (buildURLParams [("name", some "foo"), ("desc", none)] ⟨"k", "t"⟩).map Prod.fst := by
  have h := buildURL_amended [("name", some "foo"), ("desc", none)] ⟨"k", "t"⟩
    (by decide) (by decide)
  exact ⟨h.1, h.2.1, h.2.2.1 "name" "foo" (by simp), h.2.2.2.1 "desc" (by simp)⟩

/-! ## Theorems: attachment cache -/

theorem mapGet_nil {α : Type} (A : String) : mapGet ([] : List (String × α)) A = none := rfl

theorem mapGet_cons_pos {α : Type} (k : String) (v : α) (m : List (String × α))
    (A : String) (h : (k == A) = true) : mapGet ((k, v) :: m) A = some v := by
  simp [mapGet, List.find?_cons_of_pos, h]

theorem mapGet_cons_neg {α : Type} (k : String) (v : α) (m : List (String × α))
    (A : String) (h : (k == A) = false) : mapGet ((k, v) :: m) A = mapGet m A := by
  simp only [mapGet]
  rw [List.find?_cons_of_neg]
  simp [h]

theorem mapGet_filter_self {α : Type} (m : List (String × α)) (A : String) :
    mapGet (m.filter (fun p => p.1 != A)) A = none := by
  induction m with
  | nil => rfl
  | cons p rest ih =>
    obtain ⟨k, v⟩ := p
    by_cases h : (k == A) = true
    · have hb : ((k, v).1 != A) = false := by simp [bne, h]
      rw [List.filter_cons, hb]
      simpa using ih
    · have hf : (k == A) = false := by simpa using h
      have hb : ((k, v).1 != A) = true := by simp [bne, hf]
      rw [List.filter_cons, hb]
      simp only [if_true]
      rw [mapGet_cons_neg _ _ _ _ hf]
      exact ih

theorem mapGet_filter_other {α : Type} (m : List (String × α)) (A B : String)
    (hAB : (A == B) = false) :
    mapGet (m.filter (fun p => p.1 != B)) A = mapGet m A := by
  induction m with
  | nil => rfl
  | cons p rest ih =>
    obtain ⟨k, v⟩ := p
    by_cases hB : (k == B) = true
    · have hkA : (k == A) = false := by
        have h1 : k = B := by simpa using hB
        subst h1
        simpa [BEq.comm] using hAB
      have hb : ((k, v).1 != B) = false := by simp [bne, hB]
      rw [List.filter_cons, hb]
      simp only [Bool.false_eq_true, if_false]
      rw [ih, mapGet_cons_neg _ _ _ _ hkA]
    · have hf : (k == B) = false := by simpa using hB
      have hb : ((k, v).1 != B) = true := by simp [bne, hf]
      rw [List.filter_cons, hb]
      simp only [if_true]
      by_cases hA : (k == A) = true
      · rw [mapGet_cons_pos _ _ _ _ hA, mapGet_cons_pos _ _ _ _ hA]
      · have hfA : (k == A) = false := by simpa using hA
        rw [mapGet_cons_neg _ _ _ _ hfA, mapGet_cons_neg _ _ _ _ hfA]
        exact ih

theorem cleanup_of_none (s : CacheState) (A : String)
    (h : mapGet s.entries A = none) : cleanupFileAttachment s A = s := by
  unfold cleanupFileAttachment
  rw [h]

theorem cleanup_mapGet_self (s : CacheState) (A : String) :
    mapGet (cleanupFileAttachment s A).entries A = none := by
  unfold cleanupFileAttachment
  cases h : mapGet s.entries A with
  | none => exact h
  | some e => exact mapGet_filter_self s.entries A

/-- C8.  `isCacheValid` is true exactly when the entry is young enough and
its backing file still exists: it is false once `now - downloadedAt` reaches
the TTL even if the file exists, and false without the file even before the
TTL. -/
theorem isCacheValid_iff (s : CacheState) (e : CachedFileAttachment) :
    (isCacheValid s e = true ↔
      (s.now - e.downloadedAt < CACHE_TTL_MS ∧ e.filePath ∈ s.files)) ∧
    (s.now - e.downloadedAt ≥ CACHE_TTL_MS → isCacheValid s e = false) ∧
    (e.filePath ∉ s.files → isCacheValid s e = false) := by
  have hmain : isCacheValid s e = true ↔
      (s.now - e.downloadedAt < CACHE_TTL_MS ∧ e.filePath ∈ s.files) := by
    unfold isCacheValid
    simp [List.contains, List.elem_eq_mem, Int.not_le, and_comm]
  refine ⟨hmain, ?_, ?_⟩
  · intro hexp
    cases hval : isCacheValid s e with
    | false => rfl
    | true => exact absurd (hmain.mp hval).1 (by omega)
  · intro hfile
    cases hval : isCacheValid s e with
    | false => rfl
    | true => exact absurd (hmain.mp hval).2 hfile

/-- Witness for C8: an expired entry whose file exists, and a fresh entry
whose file is gone, are both invalid. -/
theorem isCacheValid_iff_witness :
    isCacheValid ⟨600000, [], [], ["/tmp/trello-mcp-server/a1_f"], 0⟩
      ⟨"/tmp/trello-mcp-server/a1_f", "f", 5, "text/plain", "c", "a1", 0, 0⟩ = false ∧
    isCacheValid ⟨5, [], [], [], 0⟩
      ⟨"/tmp/trello-mcp-server/a1_f", "f", 5, "text/plain", "c", "a1", 0, 0⟩ = false :=
  ⟨(isCacheValid_iff _ _).2.1 (by decide),
   (isCacheValid_iff _ _).2.2 (by simp)⟩

/-- C9.  `invalidate` (cleanupFileAttachment) is idempotent: a second call in
a row is the identity; after one call the map entry is gone, and when an
entry existed, its backing file has been deleted and its cleanup timer
cancelled (and in the model nothing can throw). -/
theorem invalidate_idempotent (s : CacheState) (A : String) :
    cleanupFileAttachment (cleanupFileAttachment s A) A = cleanupFileAttachment s A ∧
    getCachedFileAttachment (cleanupFileAttachment s A) A = none ∧
    (mapGet s.entries A).all (fun e =>
      !((cleanupFileAttachment s A).files.contains e.filePath) &&
      (cleanupFileAttachment s A).timers.all (fun tm => tm.id != e.cleanupTimer)) = true := by
  refine ⟨cleanup_of_none _ _ (cleanup_mapGet_self s A), cleanup_mapGet_self s A, ?_⟩
  cases h : mapGet s.entries A with
  | none => rfl
  | some e =>
    simp only [Option.all_some, Bool.and_eq_true]
    constructor
    · unfold cleanupFileAttachment
      rw [h]
      simp [List.contains, List.elem_eq_mem, List.mem_filter]
    · unfold cleanupFileAttachment
      rw [h]
      simp only [List.all_eq_true]
      intro tm htm
      exact (List.mem_filter.mp htm).2

theorem mapGet_assocSet_self {α : Type} (m : List (String × α)) (k : String) (v : α) :
    mapGet (assocSet m k v) k = some v := by
  induction m with
  | nil => exact mapGet_cons_pos k v [] k (by simp)
  | cons p rest ih =>
    obtain ⟨k0, v0⟩ := p
    by_cases h : (k0 == k) = true
    · simp only [assocSet, h, if_true]
      exact mapGet_cons_pos k v rest k (by simp)
    · have hf : (k0 == k) = false := by simpa using h
      simp only [assocSet, hf, Bool.false_eq_true, if_false]
      rw [mapGet_cons_neg _ _ _ _ hf]
      exact ih

theorem mapGet_some_mem {α : Type} {m : List (String × α)} {k : String} {e : α}
    (h : mapGet m k = some e) : (k, e) ∈ m := by
  unfold mapGet at h
  cases hf : m.find? (fun p => p.1 == k) with
  | none => rw [hf] at h; cases h
  | some p =>
    rw [hf] at h
    have hpm := List.mem_of_find?_eq_some hf
    have hpk := List.find?_some hf
    obtain ⟨p1, p2⟩ := p
    have hpk2 : (p1 == k) = true := hpk
    have h2 : p2 = e := by simpa using h
    have h1 : p1 = k := by simpa using hpk2
    rw [← h1, ← h2]
    exact hpm

theorem cleanup_of_some (s : CacheState) (A : String) (e : CachedFileAttachment)
    (h : mapGet s.entries A = some e) :
    cleanupFileAttachment s A =
      { s with
        timers := s.timers.filter (fun tm => tm.id != e.cleanupTimer)
        files := s.files.filter (fun f => f != e.filePath)
        entries := s.entries.filter (fun p => p.1 != A) } := by
  unfold cleanupFileAttachment
  rw [h]

theorem cleanup_timers_mem (s : CacheState) (B : String) {tm : PendingTimer}
    (h : tm ∈ (cleanupFileAttachment s B).timers) : tm ∈ s.timers := by
  cases hB : mapGet s.entries B with
  | none => rwa [cleanup_of_none s B hB] at h
  | some e =>
    rw [cleanup_of_some s B e hB] at h
    exact (List.mem_filter.mp h).1

theorem cleanup_timers_length (s : CacheState) (B : String) :
    (cleanupFileAttachment s B).timers.length ≤ s.timers.length := by
  cases hB : mapGet s.entries B with
  | none => rw [cleanup_of_none s B hB]
  | some e =>
    rw [cleanup_of_some s B e hB]
    exact List.length_filter_le _ _

theorem cleanup_entries_mem (s : CacheState) (B : String) {p : String × CachedFileAttachment}
    (h : p ∈ (cleanupFileAttachment s B).entries) : p ∈ s.entries := by
  cases hB : mapGet s.entries B with
  | none => rwa [cleanup_of_none s B hB] at h
  | some e =>
    rw [cleanup_of_some s B e hB] at h
    exact (List.mem_filter.mp h).1

theorem cleanup_timer_kept (s : CacheState) (B : String) {tm : PendingTimer}
    (htm : tm ∈ s.timers)
    (hid : ∀ e, mapGet s.entries B = some e → (tm.id != e.cleanupTimer) = true) :
    tm ∈ (cleanupFileAttachment s B).timers := by
  cases hB : mapGet s.entries B with
  | none => rwa [cleanup_of_none s B hB]
  | some e =>
    rw [cleanup_of_some s B e hB]
    exact List.mem_filter.mpr ⟨htm, hid e hB⟩

theorem cleanup_mapGet_other (s : CacheState) (A B : String) (hne : A ≠ B) :
    mapGet (cleanupFileAttachment s B).entries A = mapGet s.entries A := by
  cases hB : mapGet s.entries B with
  | none => rw [cleanup_of_none s B hB]
  | some e =>
    rw [cleanup_of_some s B e hB]
    exact mapGet_filter_other s.entries A B (by simp [hne])

theorem cleanup_mapGet_none_pres (s : CacheState) (A B : String)
    (h : mapGet s.entries A = none) :
    mapGet (cleanupFileAttachment s B).entries A = none := by
  by_cases hAB : A = B
  · subst hAB
    rw [cleanup_of_none s A h]
    exact h
  · rw [cleanup_mapGet_other s A B hAB]
    exact h

theorem popDueTimer_none (t : Int) : ∀ l : List PendingTimer,
    popDueTimer t l = none → ∀ tm ∈ l, ¬(tm.fireAt ≤ t) := by
  intro l
  induction l with
  | nil =>
    intro _ tm htm
    cases htm
  | cons a rest ih =>
    intro h tm htm
    by_cases hd : a.fireAt ≤ t
    · simp [popDueTimer, hd] at h
    · rcases List.mem_cons.mp htm with rfl | htail
      · exact hd
      · have hrec : popDueTimer t rest = none := by
          simp only [popDueTimer, hd, if_false] at h
          cases hr : popDueTimer t rest with
          | none => rfl
          | some pr =>
            obtain ⟨tm2, rest2⟩ := pr
            rw [hr] at h
            cases h
        exact ih hrec tm htail

theorem popDueTimer_some (t : Int) : ∀ (l : List PendingTimer) (tm : PendingTimer)
    (rest : List PendingTimer), popDueTimer t l = some (tm, rest) →
    tm ∈ l ∧ tm.fireAt ≤ t ∧ l.length = rest.length + 1 ∧
      (∀ x ∈ l, x = tm ∨ x ∈ rest) ∧ (∀ x ∈ rest, x ∈ l) := by
  intro l
  induction l with
  | nil =>
    intro tm rest h
    cases h
  | cons a r ih =>
    intro tm rest h
    by_cases hd : a.fireAt ≤ t
    · simp only [popDueTimer, hd, if_true, Option.some.injEq, Prod.mk.injEq] at h
      obtain ⟨h1, h2⟩ := h
      subst h1
      subst h2
      refine ⟨List.mem_cons_self _ _, hd, rfl, ?_, ?_⟩
      · intro x hx
        rcases List.mem_cons.mp hx with h3 | h3
        · exact Or.inl h3
        · exact Or.inr h3
      · intro x hx
        exact List.mem_cons.mpr (Or.inr hx)
    · simp only [popDueTimer, hd, if_false] at h
      cases hr : popDueTimer t r with
      | none =>
        rw [hr] at h
        cases h
      | some pr =>
        obtain ⟨tm2, rest2⟩ := pr
        rw [hr] at h
        simp only [Option.some.injEq, Prod.mk.injEq] at h
        obtain ⟨h1, h2⟩ := h
        subst h1
        subst h2
        obtain ⟨i1, i2, i3, i4, i5⟩ := ih tm2 rest2 hr
        refine ⟨List.mem_cons.mpr (Or.inr i1), i2, by simp [i3], ?_, ?_⟩
        · intro x hx
          rcases List.mem_cons.mp hx with h3 | h3
          · exact Or.inr (List.mem_cons.mpr (Or.inl h3))
          · rcases i4 x h3 with h4 | h4
            · exact Or.inl h4
            · exact Or.inr (List.mem_cons.mpr (Or.inr h4))
        · intro x hx
          rcases List.mem_cons.mp hx with h3 | h3
          · exact List.mem_cons.mpr (Or.inl h3)
          · exact List.mem_cons.mpr (Or.inr (i5 x h3))

theorem fireDue_mapGet_none (t : Int) (A : String) : ∀ (fuel : Nat) (s : CacheState),
    mapGet s.entries A = none →
    mapGet (fireDueTimers t fuel s).entries A = none := by
  intro fuel
  induction fuel with
  | zero => intro s h; exact h
  | succ n ih =>
    intro s h
    unfold fireDueTimers
    cases hp : popDueTimer t s.timers with
    | none => exact h
    | some pr =>
      obtain ⟨tm, rest⟩ := pr
      exact ih _ (cleanup_mapGet_none_pres { s with timers := rest } A tm.target h)

theorem fireDue_mapGet_eq (t : Int) (A : String) : ∀ (fuel : Nat) (s : CacheState),
    (∀ tm ∈ s.timers, tm.fireAt ≤ t → tm.target ≠ A) →
    mapGet (fireDueTimers t fuel s).entries A = mapGet s.entries A := by
  intro fuel
  induction fuel with
  | zero => intro s _; rfl
  | succ n ih =>
    intro s h
    unfold fireDueTimers
    cases hp : popDueTimer t s.timers with
    | none => rfl
    | some pr =>
      obtain ⟨tm, rest⟩ := pr
      obtain ⟨htm_mem, htm_due, _, _, hrest⟩ := popDueTimer_some t s.timers tm rest hp
      have htgt : tm.target ≠ A := h tm htm_mem htm_due
      rw [ih _ ?_]
      · exact cleanup_mapGet_other { s with timers := rest } A tm.target
          (fun hc => htgt hc.symm)
      · intro tm' htm' hdue'
        exact h tm' (hrest tm' (cleanup_timers_mem { s with timers := rest } tm.target htm'))
          hdue'

theorem fireDue_removes (t : Int) (A : String) (tid : Nat) (dl : Int) (hdl : dl ≤ t) :
    ∀ (fuel : Nat) (s : CacheState), s.timers.length ≤ fuel →
    ((mapGet s.entries A = none) ∨
      ((⟨tid, dl, A⟩ : PendingTimer) ∈ s.timers ∧
       (∀ tm ∈ s.timers, tm.target = A → tm = ⟨tid, dl, A⟩) ∧
       (∀ p ∈ s.entries, p.1 ≠ A → p.2.cleanupTimer ≠ tid))) →
    mapGet (fireDueTimers t fuel s).entries A = none := by
  intro fuel
  induction fuel with
  | zero =>
    intro s hlen hinv
    have hnil : s.timers = [] := List.length_eq_zero.mp (Nat.le_zero.mp hlen)
    rcases hinv with h | ⟨hin, _, _⟩
    · exact h
    · rw [hnil] at hin
      cases hin
  | succ n ih =>
    intro s hlen hinv
    unfold fireDueTimers
    cases hp : popDueTimer t s.timers with
    | none =>
      rcases hinv with h | ⟨hin, _, _⟩
      · exact h
      · exact absurd hdl (popDueTimer_none t s.timers hp _ hin)
    | some pr =>
      obtain ⟨tm, rest⟩ := pr
      obtain ⟨htm_mem, htm_due, hlen2, hsplit, hrest⟩ := popDueTimer_some t s.timers tm rest hp
      have hlen1 : (cleanupFileAttachment { s with timers := rest } tm.target).timers.length
          ≤ n := by
        have h1 : (cleanupFileAttachment { s with timers := rest } tm.target).timers.length
            ≤ rest.length := cleanup_timers_length { s with timers := rest } tm.target
        have h2 : rest.length + 1 ≤ n + 1 := by
          rw [← hlen2]
          exact hlen
        omega
      apply ih _ hlen1
      rcases hinv with h | ⟨hin, huniq, hfresh⟩
      · exact Or.inl (cleanup_mapGet_none_pres { s with timers := rest } A tm.target h)
      · by_cases htgt : tm.target = A
        · refine Or.inl ?_
          rw [htgt]
          exact cleanup_mapGet_self { s with timers := rest } A
        · refine Or.inr ⟨?_, ?_, ?_⟩
          · have hne : (⟨tid, dl, A⟩ : PendingTimer) ≠ tm := by
              intro hc
              apply htgt
              rw [← hc]
            have hin_rest : (⟨tid, dl, A⟩ : PendingTimer) ∈ rest := by
              rcases hsplit _ hin with h1 | h1
              · exact absurd h1 hne
              · exact h1
            refine cleanup_timer_kept { s with timers := rest } tm.target hin_rest ?_
            intro e he
            have hmem : (tm.target, e) ∈ s.entries := mapGet_some_mem he
            have hct : e.cleanupTimer ≠ tid := hfresh (tm.target, e) hmem htgt
            simp [bne]
            omega
          · intro tm' htm' htgt'
            exact huniq tm'
              (hrest tm' (cleanup_timers_mem { s with timers := rest } tm.target htm')) htgt'
          · intro p hp hpA
            exact hfresh p (cleanup_entries_mem { s with timers := rest } tm.target hp) hpA

/-- C4.  From a state whose pending timers do not target the identifier being
cached and whose entries carry timer handles older than the next fresh handle
(the module's own discipline: an entry is always cleaned up before being
re-cached), after `put` the raw map `get` returns an entry with exactly the
stored fields at every time before the TTL deadline; once the clock reaches
`put`-time plus TTL (10 minutes) the scheduled cleanup has fired and `get`
returns absent; and after an explicit `invalidate`, `get` returns absent,
including at any later time. -/
theorem cache_put_get_ttl (s : CacheState) (a : FileAttachmentInfo)
    (tEarly tLate : Int)
    (hT : ∀ tm ∈ s.timers, tm.target ≠ a.attachmentId)
    (hFreshE : ∀ p ∈ s.entries, p.2.cleanupTimer < s.nextTimerId)
    (hE : tEarly < s.now + CACHE_TTL_MS)
    (hL : s.now + CACHE_TTL_MS ≤ tLate) :
    (getCachedFileAttachment (advanceTo (cacheFileAttachment s a) tEarly)
        a.attachmentId).map CachedFileAttachment.fields = some a ∧
    getCachedFileAttachment (advanceTo (cacheFileAttachment s a) tLate)
        a.attachmentId = none ∧
    getCachedFileAttachment
        (cleanupFileAttachment (cacheFileAttachment s a) a.attachmentId)
        a.attachmentId = none ∧
    getCachedFileAttachment
        (advanceTo (cleanupFileAttachment (cacheFileAttachment s a) a.attachmentId) tLate)
        a.attachmentId = none := by
  refine ⟨?_, ?_, ?_, ?_⟩
  · show (mapGet (fireDueTimers tEarly (cacheFileAttachment s a).timers.length
      (cacheFileAttachment s a)).entries a.attachmentId).map CachedFileAttachment.fields
        = some a
    rw [fireDue_mapGet_eq tEarly a.attachmentId _ _ ?_]
    · show (mapGet (assocSet s.entries a.attachmentId _) a.attachmentId).map
          CachedFileAttachment.fields = some a
      rw [mapGet_assocSet_self]
      rfl
    · intro tm htm hdue
      rcases List.mem_append.mp htm with hold | hnew
      · exact hT tm hold
      · exfalso
        rcases List.mem_singleton.mp hnew with rfl
        simp only at hdue
        omega
  · show mapGet (fireDueTimers tLate (cacheFileAttachment s a).timers.length
      (cacheFileAttachment s a)).entries a.attachmentId = none
    refine fireDue_removes tLate a.attachmentId s.nextTimerId (s.now + CACHE_TTL_MS) hL _ _
      (Nat.le_refl _) (Or.inr ⟨?_, ?_, ?_⟩)
    · exact List.mem_append.mpr (Or.inr (List.mem_singleton.mpr rfl))
    · intro tm htm htgt
      rcases List.mem_append.mp htm with hold | hnew
      · exact absurd htgt (hT tm hold)
      · exact List.mem_singleton.mp hnew
    · intro p hp hpA
      rcases mem_of_mem_assocSet hp with rfl | hmem
      · exact absurd rfl hpA
      · exact Nat.ne_of_lt (hFreshE p hmem)
  · exact cleanup_mapGet_self (cacheFileAttachment s a) a.attachmentId
  · show mapGet (fireDueTimers tLate _ _).entries a.attachmentId = none
    exact fireDue_mapGet_none tLate a.attachmentId _ _
      (cleanup_mapGet_self (cacheFileAttachment s a) a.attachmentId)

/-- Witness for C4 from the empty cache state. -/
theorem cache_put_get_ttl_witness :
    (getCachedFileAttachment (advanceTo (cacheFileAttachment ⟨0, [], [], [], 0⟩
        ⟨"/tmp/trello-mcp-server/a1_f", "f", 5, "text/plain", "c", "a1", 0⟩) 5)
        "a1").map CachedFileAttachment.fields =
      some ⟨"/tmp/trello-mcp-server/a1_f", "f", 5, "text/plain", "c", "a1", 0⟩ ∧
    getCachedFileAttachment (advanceTo (cacheFileAttachment ⟨0, [], [], [], 0⟩
        ⟨"/tmp/trello-mcp-server/a1_f", "f", 5, "text/plain", "c", "a1", 0⟩) 600000)
        "a1" = none ∧
    getCachedFileAttachment (cleanupFileAttachment (cacheFileAttachment ⟨0, [], [], [], 0⟩
        ⟨"/tmp/trello-mcp-server/a1_f", "f", 5, "text/plain", "c", "a1", 0⟩) "a1")
        "a1" = none ∧
    getCachedFileAttachment (advanceTo (cleanupFileAttachment
        (cacheFileAttachment ⟨0, [], [], [], 0⟩
          ⟨"/tmp/trello-mcp-server/a1_f", "f", 5, "text/plain", "c", "a1", 0⟩) "a1") 600000)
        "a1" = none :=
  cache_put_get_ttl ⟨0, [], [], [], 0⟩
    ⟨"/tmp/trello-mcp-server/a1_f", "f", 5, "text/plain", "c", "a1", 0⟩ 5 600000
    (by simp) (by simp) (by decide) (by decide)

/-! ## Theorems: attachment resource-read flow -/

/-- C3 counterexample.  On a cache miss with a successful metadata fetch, a
non-ok binary download makes the handler throw a plain
`Error("Failed to download attachment: …")` built by the handler itself — not
the Typed Error of the API client (the download uses a raw `fetch`).  No
cache entry is created. -/
theorem attachment_download_counterexample :
    handleAttachmentResource ⟨0, [], [], [], 0⟩ "c" "a" "f"
      ⟨.ok (some ⟨some "n", "u", some "text/plain", some 5⟩),
        .ok ⟨false, 500, "Internal Server Error", 0⟩⟩ =
      (⟨0, [], [], [], 0⟩,
        .error (.jsError "Failed to download attachment: 500 Internal Server Error")) ∧
    flowErrIsTyped (handleAttachmentResource ⟨0, [], [], [], 0⟩ "c" "a" "f"
      ⟨.ok (some ⟨some "n", "u", some "text/plain", some 5⟩),
        .ok ⟨false, 500, "Internal Server Error", 0⟩⟩).2 = false :=
  ⟨rfl, rfl⟩

/-- C3 amended.  In the resource-read flow, whenever the pre-existing cache
entry for the identifier (if any) is invalid: a failing upstream metadata
fetch propagates the API client's Typed Error unchanged; a failing binary
download propagates either the raw fetch exception or the handler's own plain
`Failed to download attachment` error (not an API-client Typed Error); in all
of these failure cases no cache entry is created for the identifier — the
resulting cache is exactly the input cache with the invalid entry (if any)
cleaned up, so `get` of the identifier yields absent. -/
theorem attachment_failure_amended (s : CacheState) (cardId A fileName : String)
    (env : AttachmentFlowEnv) (e : TrelloError) (tv : ThrownValue)
    (resp : DownloadResponse) (att : TrelloAttachment)
    (hnv : ∀ c, getCachedFileAttachment s A = some c → isCacheValid s c = false) :
    (env.metadataResult = .error e →
      handleAttachmentResource s cardId A fileName env =
        (cleanupFileAttachment s A, .error (.typed e))) ∧
    (env.metadataResult = .ok (some att) → env.downloadResult = .error tv →
      handleAttachmentResource s cardId A fileName env =
        (cleanupFileAttachment s A, .error (.raw tv))) ∧
    (env.metadataResult = .ok (some att) → env.downloadResult = .ok resp →
      resp.ok = false →
      handleAttachmentResource s cardId A fileName env =
        (cleanupFileAttachment s A, .error (.jsError
          ("Failed to download attachment: " ++ toString resp.status ++ " "
            ++ resp.statusText)))) ∧
    getCachedFileAttachment (cleanupFileAttachment s A) A = none := by
  have hflow : handleAttachmentResource s cardId A fileName env =
      fetchAndCacheAttachment (cleanupFileAttachment s A) cardId A fileName env := by
    unfold handleAttachmentResource
    cases hc : getCachedFileAttachment s A with
    | none =>
      rw [cleanup_of_none s A hc]
    | some c =>
      simp [hnv c hc]
  refine ⟨?_, ?_, ?_, cleanup_mapGet_self s A⟩
  · intro hmeta
    rw [hflow]
    unfold fetchAndCacheAttachment
    rw [hmeta]
  · intro hmeta hdl
    rw [hflow]
    unfold fetchAndCacheAttachment
    rw [hmeta, hdl]
  · intro hmeta hdl hok
    rw [hflow]
    unfold fetchAndCacheAttachment
    rw [hmeta, hdl]
    simp [hok]

/-- Witness for C3's amended theorem: metadata fetch fails with NOT_FOUND on
an empty cache. -/
theorem attachment_failure_amended_witness :
    handleAttachmentResource ⟨0, [], [], [], 0⟩ "c" "a" "f"
      ⟨.error ⟨"Resource not found", some "404 - Not Found", some 404, some "NOT_FOUND"⟩,
        .ok ⟨true, 200, "OK", 3⟩⟩ =
      (cleanupFileAttachment ⟨0, [], [], [], 0⟩ "a",
        .error (.typed ⟨"Resource not found", some "404 - Not Found", some 404,
          some "NOT_FOUND"⟩)) ∧
    getCachedFileAttachment (cleanupFileAttachment ⟨0, [], [], [], 0⟩ "a") "a" = none := by
  have h := attachment_failure_amended ⟨0, [], [], [], 0⟩ "c" "a" "f"
    ⟨.error ⟨"Resource not found", some "404 - Not Found", some 404, some "NOT_FOUND"⟩,
      .ok ⟨true, 200, "OK", 3⟩⟩
    ⟨"Resource not found", some "404 - Not Found", some 404, some "NOT_FOUND"⟩
    .undefinedValue ⟨true, 200, "OK", 3⟩ ⟨none, "", none, none⟩
    (by intro c hc; cases hc)
  exact ⟨h.1 rfl, h.2.2.2⟩

end Trello
